import Mathlib

/-!
Verification development for the chunked archive engine of the slackdump
repository: the Chunk data model and identity scheme, the chunk stream
codec, and the Directory aggregation layer (internal/chunk/directory.go).

The Go code of internal/chunk/directory.go is translated directly.  The
chunk model and stream codec live in a file of the chunk package for
which only the test (chunk_test.go) and the callers in directory.go are
available; those parts are modelled from the spec and are marked
`Modelled from the spec:` in their doc comments.
-/

namespace Slackdump

/-- Minimal model of a slack message record: the fields exercised by the
chunk identity scheme (thread timestamp, own timestamp) plus a text body. -/
structure Message where
  Timestamp : String
  ThreadTimestamp : String
  Text : String
  deriving Repr, DecidableEq

/-- Minimal model of a slack channel record. -/
structure Channel where
  ID : String
  Name : String
  deriving Repr, DecidableEq

/-- Minimal model of a slack user record. -/
structure User where
  ID : String
  Name : String
  deriving Repr, DecidableEq

/-- Minimal model of a slack file record. -/
structure SlackFile where
  ID : String
  Name : String
  deriving Repr, DecidableEq

/-- Modelled from the spec: ChunkType is a closed integer-backed enumeration
(Messages, ThreadMessages, Files, ChannelInfo, Users, Channels), and
out-of-range values must be representable (§3), hence a bare Nat. -/
abbrev ChunkType := Nat

def CMessages : ChunkType := 0

def CThreadMessages : ChunkType := 1

def CFiles : ChunkType := 2

def CChannelInfo : ChunkType := 3

def CUsers : ChunkType := 4

def CChannels : ChunkType := 5

/-- Modelled from the spec: diagnostic rendering of a ChunkType value; an
out-of-range value N renders as ChunkType(N), which is what chunk_test.go
expects inside the unknown-identity fallback string. -/
def ChunkType.str (t : ChunkType) : String :=
  if t = CMessages then "CMessages"
  else if t = CThreadMessages then "CThreadMessages"
  else if t = CFiles then "CFiles"
  else if t = CChannelInfo then "CChannelInfo"
  else if t = CUsers then "CUsers"
  else if t = CChannels then "CChannels"
  else "ChunkType(" ++ toString t ++ ")"

/-- Modelled from the spec: the Chunk record (§3), with the slack payload
records reduced to the fields the spec and the tests exercise. -/
structure Chunk where
  «Type» : ChunkType
  Timestamp : Int := 0
  IsThread : Bool := false
  Count : Int := 0
  Channel : Option Channel := none
  ChannelID : String := ""
  Parent : Option Message := none
  Messages : List Message := []
  Files : List SlackFile := []
  Users : List User := []
  deriving Repr, DecidableEq

/-- Modelled from the spec: the fixed sentinel identity of the workspace-wide
Users chunk (§3 table); the literal value is private to the chunk package. -/
def userChunkID : String := "usr"

/-- Modelled from the spec: the fixed sentinel identity of the workspace-wide
Channels chunk (§3 table). -/
def channelChunkID : String := "chan"

/-- Zero-value message record, the anchor used when a parent message is
absent where the identity table expects one (§4.1). -/
def zeroMessage : Message := ⟨"", "", ""⟩

/-- Modelled from the spec: Chunk.ID, the §3 identity table.  A missing
parent is treated as the zero-value anchor (§4.1); a type with no table
entry renders through the unknown fallback. -/
def Chunk.ID (c : Chunk) : String :=
  if c.«Type» = CMessages then c.ChannelID
  else if c.«Type» = CThreadMessages then
    "t" ++ c.ChannelID ++ ":" ++ (c.Parent.getD zeroMessage).ThreadTimestamp
  else if c.«Type» = CFiles then
    "f" ++ c.ChannelID ++ ":" ++ (c.Parent.getD zeroMessage).Timestamp
  else if c.«Type» = CChannelInfo then
    (if c.IsThread then "tci" else "ci") ++ c.ChannelID
  else if c.«Type» = CUsers then userChunkID
  else if c.«Type» = CChannels then channelChunkID
  else "<unknown:" ++ ChunkType.str c.«Type» ++ ">"

/-- JSON value tree: the decompressed payload of every chunk or snapshot
file is a sequence of such values (§6: a chunk stream is a concatenation of
JSON objects with no outer array; the flat snapshot is one JSON array). -/
inductive Json where
  | null : Json
  | bool (b : Bool) : Json
  | num (n : Int) : Json
  | str (s : String) : Json
  | arr (xs : List Json) : Json
  | obj (kvs : List (String × Json)) : Json
  deriving Repr

/-- Decode error payloads, the model of the error values produced by the
chunk package (directory.go) and by JSON decoding. -/
inductive DirErr where
  | notFound (path : String) : DirErr
  | isDirectory (path : String) : DirErr
  | emptyChunkFile (path : String) : DirErr
  | notAFile (path : String) : DirErr
  | existsNotEmpty (path : String) : DirErr
  | noChannelInfo : DirErr
  | decodeErr (msg : String) : DirErr
  deriving Repr, DecidableEq

/-- Field lookup inside a JSON object, the model of how the JSON decoder
matches keys of an object against struct fields. -/
def getField (j : Json) (k : String) : Except DirErr Json :=
  match j with
  | .obj kvs =>
    match kvs.lookup k with
    | some v => .ok v
    | none => .error (.decodeErr ("missing field " ++ k))
  | _ => .error (.decodeErr "expected object")

def decodeString : Json → Except DirErr String
  | .str s => .ok s
  | _ => .error (.decodeErr "expected string")

def decodeInt : Json → Except DirErr Int
  | .num n => .ok n
  | _ => .error (.decodeErr "expected number")

def decodeBool : Json → Except DirErr Bool
  | .bool b => .ok b
  | _ => .error (.decodeErr "expected bool")

/-- JSON unmarshalling into the unsigned ChunkType rejects negatives. -/
def decodeChunkType : Json → Except DirErr ChunkType
  | .num (.ofNat k) => .ok k
  | .num (.negSucc _) => .error (.decodeErr "negative chunk type")
  | _ => .error (.decodeErr "expected number")

/-- Encoding of an optional (pointer-valued) record: absent encodes as
JSON null. -/
def encOpt (f : α → Json) : Option α → Json
  | none => .null
  | some x => f x

/-- Whether a JSON value is the null literal. -/
def Json.isNull : Json → Bool
  | .null => true
  | _ => false

/-- Decoding of an optional (pointer-valued) record: JSON null means
absent. -/
def decOpt (dec : Json → Except DirErr α) (j : Json) : Except DirErr (Option α) :=
  if j.isNull then .ok none else (dec j).map some

/-- Sequential decoding of a list of JSON values: left to right, aborting
on the first failure. -/
def decodeAll (dec : Json → Except DirErr α) : List Json → Except DirErr (List α)
  | [] => .ok []
  | j :: js => (dec j).bind (fun x => (decodeAll dec js).map (fun xs => x :: xs))

def decodeList (dec : Json → Except DirErr α) : Json → Except DirErr (List α)
  | .arr xs => decodeAll dec xs
  | _ => .error (.decodeErr "expected array")

def Message.toJson (m : Message) : Json :=
  .obj [("ts", .str m.Timestamp), ("thread_ts", .str m.ThreadTimestamp),
        ("text", .str m.Text)]

def decodeMessage (j : Json) : Except DirErr Message := do
  let ts ← getField j "ts" >>= decodeString
  let tts ← getField j "thread_ts" >>= decodeString
  let text ← getField j "text" >>= decodeString
  return ⟨ts, tts, text⟩

def Channel.toJson (c : Channel) : Json :=
  .obj [("id", .str c.ID), ("name", .str c.Name)]

def decodeChannel (j : Json) : Except DirErr Channel := do
  let id ← getField j "id" >>= decodeString
  let name ← getField j "name" >>= decodeString
  return ⟨id, name⟩

def User.toJson (u : User) : Json :=
  .obj [("id", .str u.ID), ("name", .str u.Name)]

def decodeUser (j : Json) : Except DirErr User := do
  let id ← getField j "id" >>= decodeString
  let name ← getField j "name" >>= decodeString
  return ⟨id, name⟩

def SlackFile.toJson (f : SlackFile) : Json :=
  .obj [("id", .str f.ID), ("name", .str f.Name)]

def decodeSlackFile (j : Json) : Except DirErr SlackFile := do
  let id ← getField j "id" >>= decodeString
  let name ← getField j "name" >>= decodeString
  return ⟨id, name⟩

/-- Modelled from the spec: the write path of the stream codec encodes each
Chunk as one self-contained JSON object (§4.2); the field set is the Chunk
structure of §3. -/
def Chunk.toJson (c : Chunk) : Json :=
  .obj [("type", .num c.«Type»),
        ("timestamp", .num c.Timestamp),
        ("isThread", .bool c.IsThread),
        ("count", .num c.Count),
        ("channel", encOpt Channel.toJson c.Channel),
        ("channelID", .str c.ChannelID),
        ("parent", encOpt Message.toJson c.Parent),
        ("messages", .arr (c.Messages.map Message.toJson)),
        ("files", .arr (c.Files.map SlackFile.toJson)),
        ("users", .arr (c.Users.map User.toJson))]

/-- Modelled from the spec: decoding of one JSON object back into a Chunk
(read path of §4.2). -/
def decodeChunk (j : Json) : Except DirErr Chunk := do
  let t ← getField j "type" >>= decodeChunkType
  let ts ← getField j "timestamp" >>= decodeInt
  let thr ← getField j "isThread" >>= decodeBool
  let cnt ← getField j "count" >>= decodeInt
  let chan ← getField j "channel" >>= decOpt decodeChannel
  let cid ← getField j "channelID" >>= decodeString
  let par ← getField j "parent" >>= decOpt decodeMessage
  let msgs ← getField j "messages" >>= decodeList decodeMessage
  let fls ← getField j "files" >>= decodeList decodeSlackFile
  let usrs ← getField j "users" >>= decodeList decodeUser
  return ⟨t, ts, thr, cnt, chan, cid, par, msgs, fls, usrs⟩

/-- Modelled from the spec: a written chunk file body is the sequence of the
chunks' JSON objects in append order (§4.2, §6). -/
def encodeChunks (cs : List Chunk) : List Json :=
  cs.map Chunk.toJson

/-- Modelled from the spec: sequential decoding of a chunk stream; a decode
failure on any object aborts with that error (§4.2). -/
def decodeChunks (vals : List Json) : Except DirErr (List Chunk) :=
  decodeAll decodeChunk vals

/-- Modelled from the spec: FromReader decodes the whole stream (building
the identity index); the model keeps the decoded chunks in file order. -/
def FromReader (vals : List Json) : Except DirErr (List Chunk) :=
  decodeChunks vals

/-- Modelled from the spec: AllChannelInfos returns every ChannelInfo
chunk's channel record in file order, and signals the distinguished
recoverable "no channel info" condition when the file has zero such
chunks (§4.2). -/
def AllChannelInfos (cs : List Chunk) : Except DirErr (List Channel) :=
  let infos := cs.filter (fun c => c.«Type» = CChannelInfo)
  if infos.isEmpty then .error .noChannelInfo
  else .ok (infos.filterMap (fun c => c.Channel))

/-- Modelled from the spec: AllUsers is the concatenation, in file order, of
the users payload of every Users chunk (§4.2). -/
def AllUsers (cs : List Chunk) : Except DirErr (List User) :=
  .ok ((cs.filter (fun c => c.«Type» = CUsers)).flatMap (fun c => c.Users))

/-- Splitting a character list on the path separator; always returns at
least one (possibly empty) component. -/
def splitSlash : List Char → List (List Char)
  | [] => [[]]
  | c :: rest =>
    if c = '/' then [] :: splitSlash rest
    else
      match splitSlash rest with
      | [] => [[c]]
      | p :: ps => (c :: p) :: ps

/-- Joining path components with the separator. -/
def renderSlash : List (List Char) → List Char
  | [] => []
  | [p] => p
  | p :: ps => p ++ '/' :: renderSlash ps

/-- The parent-directory path component. -/
def dd : List Char := ['.', '.']

/-- A component that Clean keeps as-is: not empty, not the current
directory, not the parent directory. -/
def isName (c : List Char) : Bool :=
  !(c = [] || c = ['.'] || c = dd)

/-- One step of the Clean component processing over a component stack
(head = most recent component): empty and dot components are dropped,
a dotdot pops a name, stacks on another dotdot, and is dropped at the
root of an absolute path. -/
def stepComp (abs : Bool) (acc : List (List Char)) (c : List Char) : List (List Char) :=
  if c = [] || c = ['.'] then acc
  else if c = dd then
    match acc with
    | [] => if abs then [] else [dd]
    | x :: xs => if x = dd then dd :: x :: xs else xs
  else c :: acc

/-- Clean component processing of a whole component list. -/
def cleanComps (abs : Bool) (l : List (List Char)) : List (List Char) :=
  (l.foldl (stepComp abs) []).reverse

/-- Whether a character-list path is rooted (absolute). -/
def isAbs : List Char → Bool
  | [] => false
  | c :: _ => c = '/'

/-- Whether every component of a list is the parent-directory component. -/
def allDD (l : List (List Char)) : Bool := l.all (fun c => c = dd)

/-- Normal form of the Clean component stack (head is the most recent
component): zero or more kept names, over a block of leading dotdots that
is empty for an absolute path. -/
def accNormal (abs : Bool) : List (List Char) → Bool
  | [] => true
  | x :: xs => if x = dd then !abs && allDD xs else isName x && accNormal abs xs

/-- Model of path/filepath Clean: shortest lexical equivalent of a path
(drop empty and dot components, resolve dotdot, keep rootedness; the
empty path cleans to the current directory). -/
def cleanPath (s : String) : String :=
  if s = "" then "."
  else
    let cs := s.data
    let comps := cleanComps (isAbs cs) (splitSlash cs)
    if isAbs cs then String.mk ('/' :: renderSlash comps)
    else if comps = [] then "."
    else String.mk (renderSlash comps)

/-- Model of filepath.Join applied to a single element, as in OpenRAW:
the empty string joins to itself, anything else is cleaned. -/
def join1 (s : String) : String :=
  if s = "" then "" else cleanPath s

/-- Model of filepath.Join on two elements: empty elements are skipped,
the rest are joined with the separator and cleaned. -/
def joinPath (a b : String) : String :=
  if a = "" then join1 b
  else if b = "" then cleanPath a
  else cleanPath (a ++ "/" ++ b)

/-- The on-disk extension appended to every logical chunk file name
(directory.go: const ext). -/
def ext : String := ".json.gz"

/-- One directory entry of the modelled filesystem: a subdirectory, a
zero-length regular file, or a regular file whose decompressed content is
the given sequence of JSON values.  A well-formed GZIP file is never
zero-length (the framing alone is nonempty), so fileE entries have
positive size even for an empty value sequence. -/
inductive Entry where
  | dirE : Entry
  | emptyFile : Entry
  | fileE (vals : List Json) : Entry
  deriving Repr

/-- The modelled filesystem: an association from full (cleaned) path
strings to entries. -/
def FS := List (String × Entry)

/-- Model of os.Stat: the entry at a path, if any. -/
def FS.stat (fs : FS) (p : String) : Option Entry :=
  (fs.find? (fun kv => kv.1 = p)).map (fun kv => kv.2)

/-- Updating the filesystem at a path (create or replace). -/
def FS.set (fs : FS) (p : String) (e : Entry) : FS :=
  (p, e) :: fs.filter (fun kv => kv.1 ≠ p)

/-- The stat outcomes of openChunks (directory.go): missing file, a
directory, and a zero-length file all fail, each with its own error;
otherwise the decompressed JSON value stream is returned. -/
def decodeEntry (p : String) : Option Entry → Except DirErr (List Json)
  | none => .error (.notFound p)
  | some .dirE => .error (.isDirectory p)
  | some .emptyFile => .error (.emptyChunkFile p)
  | some (.fileE vals) => .ok vals

/-- Model of openChunks (directory.go): stat the file, reject missing,
directory and zero-length paths, then open and decompress it. -/
def openChunks (fs : FS) (filename : String) : Except DirErr (List Json) :=
  decodeEntry filename (FS.stat fs filename)

/-- The Directory abstraction over a folder of chunk files
(directory.go: type Directory). -/
structure Directory where
  dir : String

/-- Model of OpenDir (directory.go): the path must exist and be a
directory. -/
def OpenDir (fs : FS) (dir : String) : Except DirErr Directory :=
  match FS.stat fs dir with
  | none => .error (.notFound dir)
  | some .dirE => .ok ⟨dir⟩
  | some _ => .error (.notAFile dir)

/-- Model of Directory.filename (directory.go): the full path of the chunk
file with the given logical name, extension appended. -/
def Directory.filename (d : Directory) (name : String) : String :=
  joinPath d.dir (name ++ ext)

/-- Model of readChannelsJSON (directory.go): decode the stream as one
flat JSON array of channel records (not through the chunk codec); JSON
null decodes to the empty list, a missing value is an EOF decode error. -/
def readChannelsJSON : List Json → Except DirErr (List Channel)
  | [] => .error (.decodeErr "EOF")
  | j :: _ =>
    match j with
    | .null => .ok []
    | .arr xs => decodeAll decodeChannel xs
    | _ => .error (.decodeErr "expected array")

/-- Model of loadChannelsJSON (directory.go): open the file as a
compressed stream and decode it as a flat channel array. -/
def loadChannelsJSON (fs : FS) (fullpath : String) : Except DirErr (List Channel) :=
  (openChunks fs fullpath).bind readChannelsJSON

/-- Model of readChanInfo (directory.go): decode the stream as chunks and
collect the channel-info records. -/
def readChanInfo (vals : List Json) : Except DirErr (List Channel) :=
  (FromReader vals).bind AllChannelInfos

/-- Model of loadChanInfo (directory.go): open one chunk file and collect
its channel-info records. -/
def loadChanInfo (fs : FS) (fullpath : String) : Except DirErr (List Channel) :=
  (openChunks fs fullpath).bind readChanInfo

/-- Lexicographic comparison of two character lists (strict). -/
def charsLt : List Char → List Char → Bool
  | [], [] => false
  | [], _ :: _ => true
  | _ :: _, [] => false
  | a :: as, b :: bs => if a = b then charsLt as bs else decide (a < b)

/-- Component-wise path comparison giving the depth-first lexical
order in which filepath.WalkDir visits paths. -/
def compsLe : List (List Char) → List (List Char) → Bool
  | [], _ => true
  | _ :: _, [] => false
  | a :: as, b :: bs => if a = b then compsLe as bs else charsLt a b

def pathLe (a b : String) : Bool :=
  compsLe (splitSlash a.data) (splitSlash b.data)

def insertPath (x : String) : List String → List String
  | [] => [x]
  | y :: ys => if pathLe x y then x :: y :: ys else y :: insertPath x ys

/-- Sorting paths into filesystem walk order (lexical, depth-first). -/
def sortPaths : List String → List String
  | [] => []
  | x :: xs => insertPath x (sortPaths xs)

/-- Whether a path lies inside the walked root (the root itself
included). -/
def underRoot (root p : String) : Bool :=
  p = root || List.isPrefixOf (root ++ "/").data p.data

/-- Whether the entry at a path is a directory. -/
def isDirAt (fs : FS) (p : String) : Bool :=
  match FS.stat fs p with
  | some .dirE => true
  | _ => false

/-- The files visited by the fallback scan of Channels (directory.go):
every path under the root, in walk order, whose name ends in the chunk
extension and which is not a directory. -/
def chunkFiles (fs : FS) (root : String) : List String :=
  (sortPaths ((fs.map (fun kv => kv.1)).dedup)).filter
    (fun p => underRoot root p && List.isSuffixOf ext.data p.data && !isDirAt fs p)

/-- The walk body of Channels (directory.go): load each file's
channel-info records, treat the distinguished "no channel info" condition
as an empty contribution, abort on any other error, and accumulate
across files. -/
def walkChannels (fs : FS) : List String → List Channel → Except DirErr (List Channel)
  | [], acc => .ok acc
  | p :: ps, acc =>
    match loadChanInfo fs p with
    | .error e => if e = .noChannelInfo then walkChannels fs ps acc else .error e
    | .ok chs => walkChannels fs ps (acc ++ chs)

/-- Model of Directory.Channels (directory.go): if the dedicated channels
snapshot exists as a non-directory file, decode it as a flat JSON array;
otherwise walk every chunk file under the directory and collect
channel-info chunks. -/
def Directory.Channels (fs : FS) (d : Directory) : Except DirErr (List Channel) :=
  match FS.stat fs (d.filename "channels") with
  | some e =>
    match e with
    | .dirE => walkChannels fs (chunkFiles fs d.dir) []
    | _ => loadChannelsJSON fs (d.filename "channels")
  | none => walkChannels fs (chunkFiles fs d.dir) []

/-- Model of Directory.Users (directory.go): open the dedicated users
file (no fallback scan) and return the concatenated user payloads. -/
def Directory.Users (fs : FS) (d : Directory) : Except DirErr (List User) :=
  (openChunks fs (d.filename "users")).bind (fun vals =>
    (FromReader vals).bind AllUsers)

/-- Model of Directory.OpenRAW (directory.go): open the compressed chunk
file at the literal filename, which is only path-cleaned (filepath.Join of
the single element) and never prefixed with the Directory's folder. -/
def Directory.OpenRAW (fs : FS) (_d : Directory) (filename : String) : Except DirErr (List Json) :=
  openChunks fs (join1 filename)

/-- Model of Directory.Open (directory.go): resolve the logical name
inside the folder, open it through OpenRAW and decode the chunk stream. -/
def Directory.Open (fs : FS) (d : Directory) (name : String) : Except DirErr (List Chunk) :=
  (Directory.OpenRAW fs d (d.filename name)).bind FromReader

/-- Handle for a writer produced by Directory.Create: the target path and
the chunks written so far (the compressed bytes reach the file when the
writer is closed). -/
structure WriterH where
  path : String
  buffered : List Chunk
  deriving Repr, DecidableEq

/-- Model of Directory.Create (directory.go): stat the target; an existing
directory or an existing file of positive size is an error (a fileE entry
is always of positive size, a zero-length file is not); otherwise the file
is created empty (or the existing empty file reopened) for writing.  The
returned filesystem is unchanged on every error path. -/
def Directory.Create (fs : FS) (d : Directory) (name : String) : FS × Except DirErr WriterH :=
  let filename := d.filename name
  match FS.stat fs filename with
  | some .dirE => (fs, .error (.notAFile filename))
  | some (.fileE _) => (fs, .error (.existsNotEmpty filename))
  | some .emptyFile => (FS.set fs filename .emptyFile, .ok ⟨filename, []⟩)
  | none => (FS.set fs filename .emptyFile, .ok ⟨filename, []⟩)

/-- Appending chunks through the writer (buffered until close). -/
def WriterH.write (w : WriterH) (cs : List Chunk) : WriterH :=
  ⟨w.path, w.buffered ++ cs⟩

/-- Closing the writer on the success path: the compression layer flushes
the GZIP trailer, so the file receives the encoded chunk stream (nonempty
on disk even for zero chunks). -/
def WriterH.close (fs : FS) (w : WriterH) : FS :=
  FS.set fs w.path (.fileE (encodeChunks w.buffered))

/-- The event of closing one layer of the layered writer. -/
inductive CloseEvent where
  | inner : CloseEvent
  | outer : CloseEvent
  deriving Repr, DecidableEq

/-- The layered writer returned by Directory.Create, abstracted to the
outcomes its two close operations would produce: innerErr is the error of
closing the compression layer, outerErr of closing the file handle. -/
structure closewrapper where
  innerErr : Option String
  outerErr : Option String
  deriving Repr, DecidableEq

/-- Model of closewrapper.Close (directory.go): close the compression
layer; if that fails, return its error at once (the underlying handle is
not closed); otherwise close the underlying handle and return its
outcome.  The first component lists the close operations attempted, in
order. -/
def closewrapper.Close (c : closewrapper) : List CloseEvent × Option String :=
  match c.innerErr with
  | some e => ([.inner], some e)
  | none => ([.inner, .outer], c.outerErr)

/-- A per-file outcome the channel scan recovers from: either the file
decoded (possibly to an empty contribution) or it reported the
distinguished "no channel info" condition. -/
def recoverable (r : Except DirErr (List Channel)) : Prop :=
  (∃ chs, r = .ok chs) ∨ r = .error .noChannelInfo

/-- The channel records one file contributes to the fallback scan. -/
def chanContrib (fs : FS) (p : String) : List Channel :=
  match loadChanInfo fs p with
  | .ok chs => chs
  | .error _ => []

/-- The channel records of the ChannelInfo chunks of a decoded stream, in
file order. -/
def channelInfoRecords (cs : List Chunk) : List Channel :=
  (cs.filter (fun c => c.«Type» = CChannelInfo)).filterMap (fun c => c.Channel)

def wD : Directory := ⟨"arch"⟩

def wChan : Channel := ⟨"C01", "general"⟩

def wChanInfoChunk : Chunk := ⟨CChannelInfo, 0, false, 1, some wChan, "C01", none, [], [], []⟩

def wMsgChunk : Chunk := ⟨CMessages, 0, false, 1, none, "C02", none, [⟨"1000", "", "hello"⟩], [], []⟩

def wFsSnap : FS :=
  [("arch", .dirE),
   ("arch/channels.json.gz", .fileE [Json.arr [Channel.toJson wChan]]),
   ("arch/C01.json.gz", .fileE [Chunk.toJson wChanInfoChunk])]

def wFsScan : FS :=
  [("arch", .dirE),
   ("arch/C01.json.gz", .fileE [Chunk.toJson wChanInfoChunk]),
   ("arch/C02.json.gz", .fileE [Chunk.toJson wMsgChunk])]

def wFsBad : FS :=
  [("arch", .dirE), ("arch/C03.json.gz", .fileE [Json.str "oops"])]

def wFsMisc : FS :=
  [("arch", .dirE), ("arch/users.json.gz", .emptyFile), ("arch/sub.json.gz", .dirE)]

def wFsNew : FS := [("arch", .dirE)]


theorem ok_bind {α β : Type} (a : α) (f : α → Except DirErr β) : (Except.ok a >>= f) = f a := rfl

theorem map_ok {α β : Type} (a : α) (f : α → β) : (f <$> (Except.ok a : Except DirErr α)) = .ok (f a) := rfl

theorem decodeMessage_toJson (m : Message) : decodeMessage (Message.toJson m) = .ok m := rfl

theorem decodeChannel_toJson (c : Channel) : decodeChannel (Channel.toJson c) = .ok c := rfl

theorem decodeUser_toJson (u : User) : decodeUser (User.toJson u) = .ok u := rfl

theorem decodeSlackFile_toJson (f : SlackFile) : decodeSlackFile (SlackFile.toJson f) = .ok f := rfl

theorem decodeAll_map {β : Type} (dec : Json → Except DirErr β) (enc : β → Json)
    (h : ∀ x, dec (enc x) = .ok x) (xs : List β) :
    decodeAll dec (xs.map enc) = .ok xs := by
  induction xs with
  | nil => rfl
  | cons x xs ih => simp [decodeAll, h, ih]; rfl

theorem decOpt_encOpt {β : Type} (dec : Json → Except DirErr β) (enc : β → Json)
    (h : ∀ x, dec (enc x) = .ok x) (henc : ∀ x, (enc x).isNull = false) (o : Option β) :
    decOpt dec (encOpt enc o) = .ok o := by
  cases o with
  | none => rfl
  | some v => simp [encOpt, decOpt, henc v, h v]; rfl

theorem decodeChunk_toJson (c : Chunk) : decodeChunk (Chunk.toJson c) = .ok c := by
  obtain ⟨t, ts, thr, cnt, chan, cid, par, msgs, fls, usrs⟩ := c
  show decodeChunk (Json.obj _) = _
  simp only [decodeChunk, Chunk.toJson, getField, List.lookup, decodeChunkType, decodeInt,
    decodeBool, decodeString, decodeList]
  simp [ok_bind, map_ok, decodeChunkType, decodeInt, decodeBool, decodeString, decodeList,
    decOpt_encOpt decodeChannel Channel.toJson decodeChannel_toJson (fun _ => rfl),
    decOpt_encOpt decodeMessage Message.toJson decodeMessage_toJson (fun _ => rfl),
    decodeAll_map decodeMessage Message.toJson decodeMessage_toJson,
    decodeAll_map decodeSlackFile SlackFile.toJson decodeSlackFile_toJson,
    decodeAll_map decodeUser User.toJson decodeUser_toJson]

theorem splitSlash_ne_nil (cs : List Char) : splitSlash cs ≠ [] := by
  induction cs with
  | nil => simp [splitSlash]
  | cons c rest ih =>
    by_cases h : c = '/'
    · simp [splitSlash, h]
    · simp only [splitSlash, if_neg h]
      cases hs : splitSlash rest with
      | nil => simp
      | cons p ps => simp

theorem noslash_of_mem_splitSlash (cs : List Char) (p : List Char)
    (hp : p ∈ splitSlash cs) : '/' ∉ p := by
  induction cs generalizing p with
  | nil => simp [splitSlash] at hp; simp [hp]
  | cons c rest ih =>
    by_cases h : c = '/'
    · simp only [splitSlash, if_pos h, List.mem_cons] at hp
      rcases hp with h1 | h1
      · simp [h1]
      · exact ih p h1
    · simp only [splitSlash, if_neg h] at hp
      cases hs : splitSlash rest with
      | nil => exact absurd hs (splitSlash_ne_nil rest)
      | cons q qs =>
        rw [hs] at hp
        rcases List.mem_cons.mp hp with h1 | h1
        · subst h1
          intro hm
          rcases List.mem_cons.mp hm with h2 | h2
          · exact h h2.symm
          · exact ih q (hs ▸ List.mem_cons_self q qs) h2
        · exact ih p (hs ▸ List.mem_cons_of_mem q h1)

theorem splitSlash_noslash (p : List Char) (hp : '/' ∉ p) : splitSlash p = [p] := by
  induction p with
  | nil => rfl
  | cons c rest ih =>
    have hc : c ≠ '/' := fun h => hp (h ▸ List.mem_cons_self c rest)
    have hrest : '/' ∉ rest := fun h => hp (List.mem_cons_of_mem c h)
    simp only [splitSlash, if_neg hc, ih hrest]

theorem splitSlash_append (p t : List Char) (hp : '/' ∉ p) :
    splitSlash (p ++ '/' :: t) = p :: splitSlash t := by
  induction p with
  | nil => simp [splitSlash]
  | cons c rest ih =>
    have hc : c ≠ '/' := fun h => hp (h ▸ List.mem_cons_self c rest)
    have hrest : '/' ∉ rest := fun h => hp (List.mem_cons_of_mem c h)
    simp only [List.cons_append, splitSlash, if_neg hc]
    rw [show rest.append ('/' :: t) = rest ++ '/' :: t from rfl, ih hrest]

theorem splitSlash_renderSlash (parts : List (List Char)) (hne : parts ≠ [])
    (hns : ∀ p ∈ parts, '/' ∉ p) : splitSlash (renderSlash parts) = parts := by
  induction parts with
  | nil => exact absurd rfl hne
  | cons p ps ih =>
    cases ps with
    | nil => exact splitSlash_noslash p (hns p (List.mem_cons_self p []))
    | cons q qs =>
      have h1 : renderSlash (p :: q :: qs) = p ++ '/' :: renderSlash (q :: qs) := rfl
      rw [h1, splitSlash_append p _ (hns p (List.mem_cons_self p _))]
      rw [ih (by simp) (fun r hr => hns r (List.mem_cons_of_mem p hr))]

theorem stepComp_accNormal (abs : Bool) (acc : List (List Char)) (c : List Char)
    (h : accNormal abs acc = true) : accNormal abs (stepComp abs acc c) = true := by
  unfold stepComp
  by_cases h1 : c = [] ∨ c = ['.']
  · have hb : (decide (c = []) || decide (c = ['.'])) = true := by
      rcases h1 with h1 | h1 <;> simp [h1]
    rw [if_pos hb]; exact h
  · push_neg at h1
    have hb : ¬((decide (c = []) || decide (c = ['.'])) = true) := by
      simp [h1.1, h1.2]
    rw [if_neg hb]
    by_cases h2 : c = dd
    · rw [if_pos h2]
      cases acc with
      | nil =>
        cases abs
        · simp [accNormal, allDD]
        · simp [accNormal]
      | cons x xs =>
        show accNormal abs (if x = dd then dd :: x :: xs else xs) = true
        by_cases h3 : x = dd
        · subst h3
          rw [if_pos rfl]
          simp only [accNormal, if_pos rfl] at h ⊢
          simp [allDD] at h ⊢
          exact ⟨h.1, h.2⟩
        · rw [if_neg h3]
          simp only [accNormal, if_neg h3] at h
          simp at h
          exact h.2
    · rw [if_neg h2]
      simp only [accNormal, if_neg h2]
      have hn : isName c = true := by simp [isName, h1.1, h1.2, h2]
      simp [hn, h]

theorem foldl_accNormal (abs : Bool) (l : List (List Char)) (acc : List (List Char))
    (h : accNormal abs acc = true) :
    accNormal abs (List.foldl (stepComp abs) acc l) = true := by
  induction l generalizing acc with
  | nil => exact h
  | cons c cs ih => exact ih _ (stepComp_accNormal abs acc c h)

theorem accNormal_decomp (abs : Bool) (acc : List (List Char))
    (h : accNormal abs acc = true) :
    ∃ names k, acc = names ++ List.replicate k dd ∧ (∀ x ∈ names, isName x = true) ∧
      (abs = true → k = 0) := by
  induction acc with
  | nil => exact ⟨[], 0, by simp⟩
  | cons x xs ih =>
    by_cases h2 : x = dd
    · subst h2
      simp only [accNormal, if_pos rfl] at h
      simp at h
      have hall : ∀ y ∈ xs, y = dd := by
        intro y hy
        have := h.2
        simp [allDD, List.all_eq_true] at this
        exact this y hy
      refine ⟨[], xs.length + 1, ?_, by simp, ?_⟩
      · simp [List.replicate_succ]
        exact List.eq_replicate_of_mem hall
      · intro habs; rw [habs] at h; simp at h
    · simp only [accNormal, if_neg h2] at h
      simp at h
      obtain ⟨names, k, heq, hnames, habs⟩ := ih h.2
      exact ⟨x :: names, k, by simp [heq], by
        intro y hy
        rcases List.mem_cons.mp hy with h3 | h3
        · subst h3; exact h.1
        · exact hnames y h3, habs⟩

theorem foldl_names (abs : Bool) (l : List (List Char)) (acc : List (List Char))
    (h : ∀ c ∈ l, isName c = true) :
    List.foldl (stepComp abs) acc l = l.reverse ++ acc := by
  induction l generalizing acc with
  | nil => simp
  | cons c cs ih =>
    have hc := h c (List.mem_cons_self c cs)
    have hstep : stepComp abs acc c = c :: acc := by
      simp [isName] at hc
      unfold stepComp
      rw [if_neg (by simp [hc.1.1, hc.1.2]), if_neg hc.2]
    rw [List.foldl_cons, hstep, ih _ (fun x hx => h x (List.mem_cons_of_mem c hx))]
    simp

theorem foldl_dds (k j : Nat) :
    List.foldl (stepComp false) (List.replicate j dd) (List.replicate k dd) =
      List.replicate (k + j) dd := by
  induction k generalizing j with
  | zero => simp
  | succ k ih =>
    rw [List.replicate_succ, List.foldl_cons]
    have hstep : stepComp false (List.replicate j dd) dd = List.replicate (j + 1) dd := by
      unfold stepComp
      rw [if_neg (by simp [dd] : ¬((decide (dd = []) || decide (dd = ['.'])) = true)), if_pos rfl]
      cases j with
      | zero => simp
      | succ j => simp [List.replicate_succ]
    rw [hstep, ih (j + 1)]
    congr 1
    omega


theorem refold_stack (abs : Bool) (stack : List (List Char))
    (h : accNormal abs stack = true) :
    List.foldl (stepComp abs) [] stack.reverse = stack := by
  obtain ⟨names, k, heq, hnames, habs⟩ := accNormal_decomp abs stack h
  subst heq
  rw [List.reverse_append, List.reverse_replicate, List.foldl_append]
  cases abs with
  | false =>
    have h0 : List.foldl (stepComp false) [] (List.replicate k dd) = List.replicate k dd := by
      have := foldl_dds k 0
      simpa using this
    rw [h0, foldl_names false _ _ (by intro c hc; exact hnames c (by simpa using hc))]
    simp
  | true =>
    rw [habs rfl]
    simp only [List.replicate_zero, List.foldl_nil]
    rw [foldl_names true _ _ (by intro c hc; exact hnames c (by simpa using hc))]
    simp

theorem accNormal_mem (abs : Bool) (acc : List (List Char)) (h : accNormal abs acc = true)
    (x : List Char) (hx : x ∈ acc) : isName x = true ∨ x = dd := by
  induction acc with
  | nil => simp at hx
  | cons y ys ih =>
    by_cases h2 : y = dd
    · subst h2
      simp only [accNormal, if_pos rfl] at h
      simp [allDD] at h
      rcases List.mem_cons.mp hx with h3 | h3
      · exact Or.inr h3
      · exact Or.inr (h.2 x h3)
    · simp only [accNormal, if_neg h2] at h
      simp at h
      rcases List.mem_cons.mp hx with h3 | h3
      · exact Or.inl (h3 ▸ h.1)
      · exact ih h.2 h3

theorem mem_stepComp (abs : Bool) (acc : List (List Char)) (c x : List Char)
    (hx : x ∈ stepComp abs acc c) : x ∈ acc ∨ x = c ∨ x = dd := by
  unfold stepComp at hx
  by_cases h1 : (decide (c = []) || decide (c = ['.'])) = true
  · rw [if_pos h1] at hx; exact Or.inl hx
  · rw [if_neg h1] at hx
    by_cases h2 : c = dd
    · rw [if_pos h2] at hx
      cases acc with
      | nil =>
        cases abs with
        | false => simp at hx; exact Or.inr (Or.inr hx)
        | true => simp at hx
      | cons y ys =>
        have hx2 : x ∈ (if y = dd then dd :: y :: ys else ys) := hx
        by_cases h3 : y = dd
        · rw [if_pos h3] at hx2
          rcases List.mem_cons.mp hx2 with h4 | h4
          · exact Or.inr (Or.inr h4)
          · exact Or.inl h4
        · rw [if_neg h3] at hx2
          exact Or.inl (List.mem_cons_of_mem y hx2)
    · rw [if_neg h2] at hx
      rcases List.mem_cons.mp hx with h4 | h4
      · exact Or.inr (Or.inl h4)
      · exact Or.inl h4

theorem mem_foldl_stepComp (abs : Bool) (l acc : List (List Char)) (x : List Char)
    (hx : x ∈ List.foldl (stepComp abs) acc l) : x ∈ acc ∨ x ∈ l ∨ x = dd := by
  induction l generalizing acc with
  | nil => exact Or.inl hx
  | cons c cs ih =>
    rw [List.foldl_cons] at hx
    rcases ih _ hx with h1 | h1 | h1
    · rcases mem_stepComp abs acc c x h1 with h2 | h2 | h2
      · exact Or.inl h2
      · exact Or.inr (Or.inl (h2 ▸ List.mem_cons_self c cs))
      · exact Or.inr (Or.inr h2)
    · exact Or.inr (Or.inl (List.mem_cons_of_mem c h1))
    · exact Or.inr (Or.inr h1)

theorem renderSlash_head (c0 : List Char) (rest : List (List Char)) (h : c0 ≠ []) :
    (renderSlash (c0 :: rest)).head? = c0.head? := by
  cases rest with
  | nil => rfl
  | cons q qs =>
    cases c0 with
    | nil => exact absurd rfl h
    | cons a as => rfl

theorem renderSlash_ne_nil (comps : List (List Char)) (hne : comps ≠ [])
    (h0 : ∀ p ∈ comps, p ≠ []) : renderSlash comps ≠ [] := by
  cases comps with
  | nil => exact absurd rfl hne
  | cons c0 rest =>
    have hh := renderSlash_head c0 rest (h0 c0 (List.mem_cons_self c0 rest))
    intro hr
    rw [hr] at hh
    cases hc : c0 with
    | nil => exact h0 c0 (List.mem_cons_self c0 rest) hc
    | cons a as => rw [hc] at hh; simp at hh

theorem cleanComps_self (a : Bool) (stack : List (List Char))
    (h : accNormal a stack = true) :
    cleanComps a stack.reverse = stack.reverse := by
  unfold cleanComps
  rw [refold_stack a stack h]

theorem cleanComps_cons_nil (a : Bool) (l : List (List Char)) :
    cleanComps a ([] :: l) = cleanComps a l := rfl

theorem isName_ne_nil (x : List Char) (h : isName x = true) : x ≠ [] := by
  simp [isName] at h
  exact h.1.1

theorem data_mk (l : List Char) : (String.mk l).data = l := rfl

theorem isAbs_slash (r : List Char) : isAbs ('/' :: r) = true := by simp [isAbs]

theorem splitSlash_slash (r : List Char) : splitSlash ('/' :: r) = [] :: splitSlash r := by
  simp [splitSlash]

theorem isAbs_eq_false (l : List Char) (h : ∀ c, l.head? = some c → c ≠ '/') :
    isAbs l = false := by
  cases l with
  | nil => rfl
  | cons c t =>
    simp [isAbs]
    exact h c rfl

theorem mk_ne_empty (c : Char) (l : List Char) : String.mk (c :: l) ≠ "" := by
  intro h
  have := congrArg String.data h
  simp at this

theorem cleanPath_eval (s : String) (hs : s ≠ "") :
    cleanPath s =
      (if isAbs s.data then
        String.mk ('/' :: renderSlash (cleanComps (isAbs s.data) (splitSlash s.data)))
       else if cleanComps (isAbs s.data) (splitSlash s.data) = [] then "."
       else String.mk (renderSlash (cleanComps (isAbs s.data) (splitSlash s.data)))) := by
  rw [cleanPath, if_neg hs]

theorem cleanPath_idem (s : String) : cleanPath (cleanPath s) = cleanPath s := by
  by_cases hs : s = ""
  · subst hs; rfl
  · have hnorm : accNormal (isAbs s.data) (List.foldl (stepComp (isAbs s.data)) [] (splitSlash s.data)) = true :=
      foldl_accNormal _ _ [] rfl
    set a := isAbs s.data with ha
    set stack := List.foldl (stepComp a) [] (splitSlash s.data) with hstack
    have hcomps : cleanComps a (splitSlash s.data) = stack.reverse := rfl
    have hmem : ∀ x ∈ stack.reverse, isName x = true ∨ x = dd := fun x hx =>
      accNormal_mem a stack hnorm x (List.mem_reverse.mp hx)
    have hslash : ∀ x ∈ stack.reverse, '/' ∉ x := by
      intro x hx
      rcases mem_foldl_stepComp a (splitSlash s.data) [] x (List.mem_reverse.mp hx) with h1 | h1 | h1
      · simp at h1
      · exact noslash_of_mem_splitSlash s.data x h1
      · subst h1; simp [dd]
    have hne0 : ∀ x ∈ stack.reverse, x ≠ [] := by
      intro x hx
      rcases hmem x hx with h1 | h1
      · exact isName_ne_nil x h1
      · subst h1; simp [dd]
    rw [cleanPath_eval s hs, hcomps]
    by_cases hA : a = true
    · rw [if_pos hA]
      obtain ⟨names, k, hsd, hnames, habs0⟩ := accNormal_decomp a stack hnorm
      have hk0 : k = 0 := habs0 hA
      subst hk0
      simp only [List.replicate_zero, List.append_nil] at hsd
      have helem : ∀ x ∈ stack.reverse, isName x = true := by
        intro x hx
        exact hnames x (hsd ▸ List.mem_reverse.mp hx)
      by_cases hC : stack.reverse = []
      · rw [hC]
        decide
      · have ht := mk_ne_empty '/' (renderSlash stack.reverse)
        rw [cleanPath_eval _ ht, data_mk, isAbs_slash, splitSlash_slash,
          splitSlash_renderSlash _ hC hslash, if_pos rfl, cleanComps_cons_nil]
        rw [← hA, cleanComps_self a stack hnorm]
    · have hA2 : a = false := by
        cases hb : a
        · rfl
        · exact absurd hb hA
      rw [if_neg hA]
      by_cases hC : stack.reverse = []
      · rw [if_pos hC]
        decide
      · rw [if_neg hC]
        have hrne : renderSlash stack.reverse ≠ [] := renderSlash_ne_nil _ hC hne0
        have ht : String.mk (renderSlash stack.reverse) ≠ "" := by
          intro h
          exact hrne (congrArg String.data h)
        rw [cleanPath_eval _ ht, data_mk]
        have habs2 : isAbs (renderSlash stack.reverse) = false := by
          apply isAbs_eq_false
          intro c hch
          cases hcc : stack.reverse with
          | nil => exact absurd hcc hC
          | cons c0 rest =>
            have hc0ne : c0 ≠ [] := hne0 c0 (hcc ▸ List.mem_cons_self c0 rest)
            have hh := renderSlash_head c0 rest hc0ne
            rw [← hcc] at hh
            rw [hch] at hh
            cases hc0 : c0 with
            | nil => exact absurd hc0 hc0ne
            | cons ch ct =>
              rw [hc0] at hh
              simp at hh
              intro hslashc
              apply hslash c0 (hcc ▸ List.mem_cons_self c0 rest)
              rw [hc0, ← hh, hslashc]
              exact List.mem_cons_self _ _
        rw [habs2]
        simp only [Bool.false_eq_true, if_false]
        rw [splitSlash_renderSlash _ hC hslash]
        rw [← hA2, cleanComps_self a stack hnorm]
        rw [if_neg hC]

theorem cleanPath_ne_empty (s : String) : cleanPath s ≠ "" := by
  by_cases hs : s = ""
  · subst hs; decide
  · have hnorm : accNormal (isAbs s.data) (List.foldl (stepComp (isAbs s.data)) [] (splitSlash s.data)) = true :=
      foldl_accNormal _ _ [] rfl
    set a := isAbs s.data with ha
    set stack := List.foldl (stepComp a) [] (splitSlash s.data) with hstack
    have hcomps : cleanComps a (splitSlash s.data) = stack.reverse := rfl
    have hne0 : ∀ x ∈ stack.reverse, x ≠ [] := by
      intro x hx
      rcases accNormal_mem a stack hnorm x (List.mem_reverse.mp hx) with h1 | h1
      · exact isName_ne_nil x h1
      · subst h1; simp [dd]
    rw [cleanPath_eval s hs, hcomps]
    by_cases hA : a = true
    · rw [if_pos hA]; exact mk_ne_empty _ _
    · rw [if_neg hA]
      by_cases hC : stack.reverse = []
      · rw [if_pos hC]; decide
      · rw [if_neg hC]
        intro h
        exact renderSlash_ne_nil _ hC hne0 (congrArg String.data h)

theorem join1_cleanPath (s : String) : join1 (cleanPath s) = cleanPath s := by
  unfold join1
  rw [if_neg (cleanPath_ne_empty s), cleanPath_idem]

theorem join1_joinPath (a b : String) : join1 (joinPath a b) = joinPath a b := by
  unfold joinPath
  by_cases h1 : a = ""
  · rw [if_pos h1]
    by_cases h2 : b = ""
    · rw [show join1 b = if b = "" then "" else cleanPath b from rfl, if_pos h2]
      rfl
    · rw [show join1 b = if b = "" then "" else cleanPath b from rfl, if_neg h2]
      exact join1_cleanPath b
  · rw [if_neg h1]
    by_cases h2 : b = ""
    · rw [if_pos h2]; exact join1_cleanPath a
    · rw [if_neg h2]; exact join1_cleanPath _

theorem join1_filename (d : Directory) (name : String) :
    join1 (d.filename name) = d.filename name := join1_joinPath d.dir (name ++ ext)


theorem walkChannels_ok (fs : FS) (ps : List String) (acc : List Channel)
    (h : ∀ p ∈ ps, recoverable (loadChanInfo fs p)) :
    walkChannels fs ps acc = .ok (acc ++ ps.flatMap (chanContrib fs)) := by
  induction ps generalizing acc with
  | nil => simp [walkChannels]
  | cons p ps ih =>
    have htail : ∀ q ∈ ps, recoverable (loadChanInfo fs q) := fun q hq =>
      h q (List.mem_cons_of_mem p hq)
    rcases h p (List.mem_cons_self p ps) with ⟨chs, hchs⟩ | hno
    · show (match loadChanInfo fs p with
        | Except.error e => if e = DirErr.noChannelInfo then walkChannels fs ps acc else .error e
        | Except.ok chs => walkChannels fs ps (acc ++ chs)) = _
      rw [hchs]
      show walkChannels fs ps (acc ++ chs) = _
      rw [ih _ htail]
      simp [chanContrib, hchs]
    · show (match loadChanInfo fs p with
        | Except.error e => if e = DirErr.noChannelInfo then walkChannels fs ps acc else .error e
        | Except.ok chs => walkChannels fs ps (acc ++ chs)) = _
      rw [hno]
      show (if DirErr.noChannelInfo = DirErr.noChannelInfo then walkChannels fs ps acc else _) = _
      rw [if_pos rfl, ih _ htail]
      simp [chanContrib, hno]

theorem walkChannels_abort (fs : FS) (l : List String) (p : String) (r : List String)
    (e : DirErr) (acc : List Channel)
    (hl : ∀ q ∈ l, recoverable (loadChanInfo fs q))
    (hp : loadChanInfo fs p = .error e) (hne : e ≠ .noChannelInfo) :
    walkChannels fs (l ++ p :: r) acc = .error e := by
  induction l generalizing acc with
  | nil =>
    show (match loadChanInfo fs p with
      | Except.error e => if e = DirErr.noChannelInfo then walkChannels fs r acc else .error e
      | Except.ok chs => walkChannels fs r (acc ++ chs)) = _
    rw [hp]
    show (if e = DirErr.noChannelInfo then _ else Except.error e) = _
    rw [if_neg hne]
  | cons q qs ih =>
    have htail : ∀ x ∈ qs, recoverable (loadChanInfo fs x) := fun x hx =>
      hl x (List.mem_cons_of_mem q hx)
    rcases hl q (List.mem_cons_self q qs) with ⟨chs, hchs⟩ | hno
    · show (match loadChanInfo fs q with
        | Except.error e => if e = DirErr.noChannelInfo then walkChannels fs (qs ++ p :: r) acc else .error e
        | Except.ok chs => walkChannels fs (qs ++ p :: r) (acc ++ chs)) = _
      rw [hchs]
      exact ih _ htail
    · show (match loadChanInfo fs q with
        | Except.error e => if e = DirErr.noChannelInfo then walkChannels fs (qs ++ p :: r) acc else .error e
        | Except.ok chs => walkChannels fs (qs ++ p :: r) (acc ++ chs)) = _
      rw [hno]
      show (if DirErr.noChannelInfo = DirErr.noChannelInfo then _ else _) = _
      rw [if_pos rfl]
      exact ih _ htail

theorem FS.stat_set (fs : FS) (p : String) (e : Entry) :
    FS.stat (FS.set fs p e) p = some e := by
  simp [FS.stat, FS.set, List.find?]

theorem decodeChunks_encodeChunks (cs : List Chunk) :
    decodeChunks (encodeChunks cs) = .ok cs := by
  unfold decodeChunks encodeChunks
  exact decodeAll_map decodeChunk Chunk.toJson decodeChunk_toJson cs

theorem chanContrib_of_noinfo (fs : FS) (p : String)
    (h : loadChanInfo fs p = .error .noChannelInfo) : chanContrib fs p = [] := by
  simp [chanContrib, h]

theorem chanContrib_records (fs : FS) (p : String) (vals : List Json) (cs : List Chunk)
    (hopen : openChunks fs p = .ok vals) (hdec : decodeChunks vals = .ok cs)
    (hne : (cs.filter (fun c => c.«Type» = CChannelInfo)) ≠ []) :
    chanContrib fs p = channelInfoRecords cs := by
  have hload : loadChanInfo fs p = .ok (channelInfoRecords cs) := by
    unfold loadChanInfo
    rw [hopen]
    show readChanInfo vals = _
    unfold readChanInfo FromReader
    rw [hdec]
    show AllChannelInfos cs = _
    unfold AllChannelInfos
    rw [if_neg (by simpa [List.isEmpty_iff] using hne)]
    rfl
  simp [chanContrib, hload]

theorem channels_unfold_snapshot (fs : FS) (d : Directory) (e : Entry)
    (hstat : FS.stat fs (d.filename "channels") = some e) (hnd : e ≠ Entry.dirE) :
    Directory.Channels fs d = loadChannelsJSON fs (d.filename "channels") := by
  unfold Directory.Channels
  rw [hstat]
  cases e with
  | dirE => exact absurd rfl hnd
  | emptyFile => rfl
  | fileE vals => rfl

theorem channels_unfold_walk (fs : FS) (d : Directory)
    (hsnap : FS.stat fs (d.filename "channels") = none ∨
             FS.stat fs (d.filename "channels") = some Entry.dirE) :
    Directory.Channels fs d = walkChannels fs (chunkFiles fs d.dir) [] := by
  unfold Directory.Channels
  rcases hsnap with h | h <;> rw [h]

theorem append_merge (s : String) :
    "<unknown:" ++ ("ChunkType(" ++ s ++ ")") ++ ">" = "<unknown:ChunkType(" ++ s ++ ")>" := by
  simp [String.append_assoc]
  rw [← String.append_assoc, show "<unknown:" ++ "ChunkType(" = "<unknown:ChunkType(" from rfl]

theorem chunk_id_unknown (c : Chunk) (h : 6 ≤ c.«Type») :
    c.ID = "<unknown:ChunkType(" ++ toString c.«Type» ++ ")>" := by
  have h0 : c.«Type» ≠ CMessages := by intro hEq; rw [hEq] at h; exact absurd h (by decide)
  have h1 : c.«Type» ≠ CThreadMessages := by intro hEq; rw [hEq] at h; exact absurd h (by decide)
  have h2 : c.«Type» ≠ CFiles := by intro hEq; rw [hEq] at h; exact absurd h (by decide)
  have h3 : c.«Type» ≠ CChannelInfo := by intro hEq; rw [hEq] at h; exact absurd h (by decide)
  have h4 : c.«Type» ≠ CUsers := by intro hEq; rw [hEq] at h; exact absurd h (by decide)
  have h5 : c.«Type» ≠ CChannels := by intro hEq; rw [hEq] at h; exact absurd h (by decide)
  simp [Chunk.ID, ChunkType.str, h0, h1, h2, h3, h4, h5, append_merge]

/-- C1: for every Chunk, the derived identity equals the literal string of
the §3 table for its type/isThread/parent combination: Messages maps to the
channelID, ThreadMessages to "t"+channelID+":"+parent thread-timestamp,
Files to "f"+channelID+":"+parent timestamp, ChannelInfo to "ci"+channelID
(or "tci"+channelID when isThread), Users and Channels to their fixed
sentinel constants, and any out-of-range type N to "<unknown:ChunkType(N)>";
the mapping is a pure, deterministic function of those fields. -/
theorem chunk_id_table (c : Chunk) :
    (c.«Type» = CMessages → c.ID = c.ChannelID)
    ∧ (c.«Type» = CThreadMessages → ∀ p, c.Parent = some p →
        c.ID = "t" ++ c.ChannelID ++ ":" ++ p.ThreadTimestamp)
    ∧ (c.«Type» = CFiles → ∀ p, c.Parent = some p →
        c.ID = "f" ++ c.ChannelID ++ ":" ++ p.Timestamp)
    ∧ (c.«Type» = CChannelInfo → c.IsThread = false → c.ID = "ci" ++ c.ChannelID)
    ∧ (c.«Type» = CChannelInfo → c.IsThread = true → c.ID = "tci" ++ c.ChannelID)
    ∧ (c.«Type» = CUsers → c.ID = userChunkID)
    ∧ (c.«Type» = CChannels → c.ID = channelChunkID)
    ∧ (6 ≤ c.«Type» → c.ID = "<unknown:ChunkType(" ++ toString c.«Type» ++ ")>")
    ∧ (∀ c₂ : Chunk, c₂.«Type» = c.«Type» → c₂.IsThread = c.IsThread →
        c₂.ChannelID = c.ChannelID → c₂.Parent = c.Parent → c₂.ID = c.ID) := by
  refine ⟨?_, ?_, ?_, ?_, ?_, ?_, ?_, ?_, ?_⟩
  · intro h; simp [Chunk.ID, h, CMessages]
  · intro h p hp
    simp [Chunk.ID, h, hp, CMessages, CThreadMessages]
  · intro h p hp
    simp [Chunk.ID, h, hp, CMessages, CThreadMessages, CFiles]
  · intro h ht
    simp [Chunk.ID, h, ht, CMessages, CThreadMessages, CFiles, CChannelInfo]
  · intro h ht
    simp [Chunk.ID, h, ht, CMessages, CThreadMessages, CFiles, CChannelInfo]
  · intro h; simp [Chunk.ID, h, CMessages, CThreadMessages, CFiles, CChannelInfo, CUsers]
  · intro h
    simp [Chunk.ID, h, CMessages, CThreadMessages, CFiles, CChannelInfo, CUsers, CChannels]
  · exact chunk_id_unknown c
  · intro c₂ h1 h2 h3 h4
    simp [Chunk.ID, h1, h2, h3, h4]

/-- C7: identity derivation is total on every populated Chunk: a missing
parent where the table expects one (ThreadMessages, Files) is treated as a
zero-value anchor yielding an empty-but-well-formed identity, and a type
with no table entry renders through the unknown fallback; derivation
always produces a string, never a failure. -/
theorem chunk_id_total (c : Chunk) :
    (c.«Type» = CThreadMessages → c.Parent = none → c.ID = "t" ++ c.ChannelID ++ ":")
    ∧ (c.«Type» = CFiles → c.Parent = none → c.ID = "f" ++ c.ChannelID ++ ":")
    ∧ (6 ≤ c.«Type» → c.ID = "<unknown:ChunkType(" ++ toString c.«Type» ++ ")>")
    ∧ (∃ s : String, c.ID = s) := by
  refine ⟨?_, ?_, chunk_id_unknown c, ⟨c.ID, rfl⟩⟩
  · intro h hp
    simp [Chunk.ID, h, hp, CMessages, CThreadMessages, zeroMessage]
  · intro h hp
    simp [Chunk.ID, h, hp, CMessages, CThreadMessages, CFiles, zeroMessage]

/-- C2: when the dedicated channels snapshot exists as a regular
(non-directory) file, Directory.Channels decodes that file as a flat JSON
array and returns the result directly; the outcome depends only on that
entry, so no other file in the directory is consulted (phase 1
short-circuits phase 2). -/
theorem channels_snapshot_short_circuit (fs : FS) (d : Directory) (e : Entry)
    (hstat : FS.stat fs (d.filename "channels") = some e) (hnd : e ≠ Entry.dirE) :
    Directory.Channels fs d =
      (decodeEntry (d.filename "channels") (some e)).bind readChannelsJSON
    ∧ (∀ vals, e = Entry.fileE vals → Directory.Channels fs d = readChannelsJSON vals)
    ∧ (∀ fs₂ : FS, FS.stat fs₂ (d.filename "channels") = some e →
        Directory.Channels fs₂ d = Directory.Channels fs d) := by
  have key : ∀ g : FS, FS.stat g (d.filename "channels") = some e →
      Directory.Channels g d =
        (decodeEntry (d.filename "channels") (some e)).bind readChannelsJSON := by
    intro g hg
    rw [channels_unfold_snapshot g d e hg hnd]
    unfold loadChannelsJSON openChunks
    rw [hg]
  refine ⟨key fs hstat, ?_, ?_⟩
  · intro vals hvals
    rw [key fs hstat, hvals]
    rfl
  · intro fs₂ h₂
    rw [key fs₂ h₂, key fs hstat]

/-- C3: with no dedicated snapshot, Directory.Channels walks every
non-directory file ending in ".json.gz" in walk order, decodes each as a
chunk stream and concatenates the ChannelInfo records without
deduplication; a file yielding the distinguished "no channel info"
condition contributes nothing and the scan continues, while any other
error aborts the walk and is returned. -/
theorem channels_fallback_scan (fs : FS) (d : Directory)
    (hsnap : FS.stat fs (d.filename "channels") = none ∨
             FS.stat fs (d.filename "channels") = some Entry.dirE) :
    ((∀ p ∈ chunkFiles fs d.dir, recoverable (loadChanInfo fs p)) →
        Directory.Channels fs d = .ok ((chunkFiles fs d.dir).flatMap (chanContrib fs)))
    ∧ (∀ p, loadChanInfo fs p = .error .noChannelInfo → chanContrib fs p = [])
    ∧ (∀ p vals cs, openChunks fs p = .ok vals → decodeChunks vals = .ok cs →
        (cs.filter (fun c => c.«Type» = CChannelInfo)) ≠ [] →
        chanContrib fs p = channelInfoRecords cs)
    ∧ (∀ l p r e, chunkFiles fs d.dir = l ++ p :: r →
        (∀ q ∈ l, recoverable (loadChanInfo fs q)) →
        loadChanInfo fs p = .error e → e ≠ .noChannelInfo →
        Directory.Channels fs d = .error e) := by
  refine ⟨?_, chanContrib_of_noinfo fs, chanContrib_records fs, ?_⟩
  · intro hrec
    rw [channels_unfold_walk fs d hsnap, walkChannels_ok fs _ [] hrec]
    simp
  · intro l p r e hsplit hl hp hne
    rw [channels_unfold_walk fs d hsnap, hsplit]
    exact walkChannels_abort fs l p r e [] hl hp hne

/-- C4 (amended): the layered writer close runs the compression-layer
close first and, only when it succeeds, the underlying handle close, in
that order; when the compression-layer close fails its error is returned
and the underlying handle close is not attempted. -/
theorem closewrapper_close_order (c : closewrapper) :
    (c.innerErr = none →
      closewrapper.Close c = ([CloseEvent.inner, CloseEvent.outer], c.outerErr))
    ∧ (∀ e, c.innerErr = some e →
      closewrapper.Close c = ([CloseEvent.inner], some e)) := by
  constructor
  · intro h; simp [closewrapper.Close, h]
  · intro e h; simp [closewrapper.Close, h]

/-- C4 counterexample: with a failing compression-layer close, the first
failure is propagated but the close of the underlying handle is NOT
attempted, refuting the claim that it still is. -/
theorem closewrapper_counterexample :
    (closewrapper.Close ⟨some "gzip: close failed", none⟩).2 = some "gzip: close failed"
    ∧ CloseEvent.outer ∉ (closewrapper.Close ⟨some "gzip: close failed", none⟩).1 := by
  constructor
  · rfl
  · intro h
    simp [closewrapper.Close] at h

theorem create_eval (fs : FS) (d : Directory) (name : String) :
    Directory.Create fs d name =
      (match FS.stat fs (d.filename name) with
       | some Entry.dirE => (fs, .error (.notAFile (d.filename name)))
       | some (Entry.fileE _) => (fs, .error (.existsNotEmpty (d.filename name)))
       | some Entry.emptyFile =>
           (FS.set fs (d.filename name) Entry.emptyFile, .ok ⟨d.filename name, []⟩)
       | none => (FS.set fs (d.filename name) Entry.emptyFile, .ok ⟨d.filename name, []⟩)) := rfl

/-- C5: Directory.Create fails when a non-empty regular file of the name
exists or the path is a directory, leaving the filesystem (and hence the
existing file) unchanged; in particular a second Create after a first
Create whose writer was closed with data fails without modifying the
written file. -/
theorem create_guard (fs : FS) (d : Directory) (name : String) :
    (∀ vals, FS.stat fs (d.filename name) = some (Entry.fileE vals) →
        Directory.Create fs d name = (fs, .error (.existsNotEmpty (d.filename name))))
    ∧ (FS.stat fs (d.filename name) = some Entry.dirE →
        Directory.Create fs d name = (fs, .error (.notAFile (d.filename name))))
    ∧ (∀ cs (w : WriterH), (Directory.Create fs d name).2 = .ok w →
        Directory.Create (WriterH.close (Directory.Create fs d name).1 (w.write cs)) d name
          = (WriterH.close (Directory.Create fs d name).1 (w.write cs),
             .error (.existsNotEmpty (d.filename name)))) := by
  refine ⟨?_, ?_, ?_⟩
  · intro vals h
    rw [create_eval, h]
  · intro h
    rw [create_eval, h]
  · intro cs w hok
    have hpath : w.path = d.filename name := by
      rw [create_eval] at hok
      cases hstat : FS.stat fs (d.filename name) with
      | none => rw [hstat] at hok; cases hok; rfl
      | some e =>
        cases e with
        | dirE => rw [hstat] at hok; cases hok
        | emptyFile => rw [hstat] at hok; cases hok; rfl
        | fileE vals => rw [hstat] at hok; cases hok
    have hstat2 : FS.stat (WriterH.close (Directory.Create fs d name).1 (w.write cs)) (d.filename name)
        = some (Entry.fileE (encodeChunks (w.buffered ++ cs))) := by
      unfold WriterH.close WriterH.write
      simp only [hpath]
      exact FS.stat_set _ _ _
    rw [create_eval, hstat2]

/-- C9: when a zero-length regular file of the target name already
exists, Directory.Create succeeds — the guard rejects only directories
and files of positive size — and the empty file is reopened for
writing. -/
theorem create_on_empty_file (fs : FS) (d : Directory) (name : String)
    (h : FS.stat fs (d.filename name) = some Entry.emptyFile) :
    Directory.Create fs d name =
      (FS.set fs (d.filename name) Entry.emptyFile, .ok ⟨d.filename name, []⟩) := by
  rw [create_eval, h]

theorem error_bind (e : DirErr) (f : α → Except DirErr β) :
    (Except.error e : Except DirErr α).bind f = Except.error e := rfl

/-- C6: openChunks (and Open, OpenRAW, Users and the channel-scan loader
built on it) fails on a missing file, a directory and a zero-length file,
and the zero-length error is distinct from the missing-file error, so
callers can tell "exists but empty" apart from "absent". -/
theorem open_error_discrimination (fs : FS) (d : Directory) (name rawname p : String) :
    (FS.stat fs p = none → openChunks fs p = .error (.notFound p))
    ∧ (FS.stat fs p = some Entry.dirE → openChunks fs p = .error (.isDirectory p))
    ∧ (FS.stat fs p = some Entry.emptyFile → openChunks fs p = .error (.emptyChunkFile p))
    ∧ (∀ q r : String, DirErr.emptyChunkFile q ≠ DirErr.notFound r)
    ∧ (FS.stat fs (d.filename name) = none →
        Directory.Open fs d name = .error (.notFound (d.filename name)))
    ∧ (FS.stat fs (d.filename name) = some Entry.emptyFile →
        Directory.Open fs d name = .error (.emptyChunkFile (d.filename name)))
    ∧ (FS.stat fs (d.filename name) = some Entry.dirE →
        Directory.Open fs d name = .error (.isDirectory (d.filename name)))
    ∧ (FS.stat fs (join1 rawname) = some Entry.emptyFile →
        Directory.OpenRAW fs d rawname = .error (.emptyChunkFile (join1 rawname)))
    ∧ (FS.stat fs (d.filename "users") = some Entry.emptyFile →
        Directory.Users fs d = .error (.emptyChunkFile (d.filename "users")))
    ∧ (FS.stat fs p = some Entry.emptyFile →
        loadChanInfo fs p = .error (.emptyChunkFile p)) := by
  have hopen : ∀ (q : String) (e : DirErr), decodeEntry q (FS.stat fs q) = .error e →
      openChunks fs q = .error e := by
    intro q e h
    unfold openChunks
    exact h
  refine ⟨?_, ?_, ?_, ?_, ?_, ?_, ?_, ?_, ?_, ?_⟩
  · intro h; exact hopen p _ (by rw [h]; rfl)
  · intro h; exact hopen p _ (by rw [h]; rfl)
  · intro h; exact hopen p _ (by rw [h]; rfl)
  · intro q r hqr; cases hqr
  · intro h
    unfold Directory.Open Directory.OpenRAW
    rw [join1_filename, hopen _ _ (by rw [h]; rfl), error_bind]
  · intro h
    unfold Directory.Open Directory.OpenRAW
    rw [join1_filename, hopen _ _ (by rw [h]; rfl), error_bind]
  · intro h
    unfold Directory.Open Directory.OpenRAW
    rw [join1_filename, hopen _ _ (by rw [h]; rfl), error_bind]
  · intro h
    unfold Directory.OpenRAW
    rw [hopen _ _ (by rw [h]; rfl)]
  · intro h
    unfold Directory.Users
    rw [hopen _ _ (by rw [h]; rfl), error_bind]
  · intro h
    unfold loadChanInfo
    rw [hopen _ _ (by rw [h]; rfl), error_bind]

/-- C8: round-trip of the chunk stream codec: chunks written through a
writer obtained from Directory.Create and closed are returned identically,
in order, by Directory.Open on the same name. -/
theorem chunk_roundtrip (fs : FS) (d : Directory) (name : String) (cs : List Chunk)
    (w : WriterH) (h : (Directory.Create fs d name).2 = .ok w) :
    Directory.Open (WriterH.close (Directory.Create fs d name).1 (w.write cs)) d name
      = .ok cs := by
  have hw : w = ⟨d.filename name, []⟩ := by
    rw [create_eval] at h
    cases hstat : FS.stat fs (d.filename name) with
    | none => rw [hstat] at h; cases h; rfl
    | some e =>
      cases e with
      | dirE => rw [hstat] at h; cases h
      | emptyFile => rw [hstat] at h; cases h; rfl
      | fileE vals => rw [hstat] at h; cases h
  subst hw
  have hstat2 : FS.stat (WriterH.close (Directory.Create fs d name).1
      (WriterH.write ⟨d.filename name, []⟩ cs)) (d.filename name)
      = some (Entry.fileE (encodeChunks cs)) := by
    unfold WriterH.close WriterH.write
    simp only [List.nil_append]
    exact FS.stat_set _ _ _
  unfold Directory.Open Directory.OpenRAW
  rw [join1_filename]
  unfold openChunks
  rw [hstat2]
  show FromReader (encodeChunks cs) = _
  unfold FromReader
  exact decodeChunks_encodeChunks cs

/-- C10: Directory.OpenRAW resolves the supplied filename exactly as
given (only path-cleaned) and never prefixes the Directory folder, so two
Directories over different folders open the same on-disk path for the
same filename, whereas Directory.Open resolves the logical name inside
the folder with the ".json.gz" extension. -/
theorem openraw_literal_path (fs : FS) (d1 d2 : Directory) (rawname name : String) :
    Directory.OpenRAW fs d1 rawname = openChunks fs (join1 rawname)
    ∧ Directory.OpenRAW fs d1 rawname = Directory.OpenRAW fs d2 rawname
    ∧ Directory.Open fs d1 name =
        (openChunks fs (joinPath d1.dir (name ++ ext))).bind FromReader := by
  refine ⟨rfl, rfl, ?_⟩
  unfold Directory.Open Directory.OpenRAW
  rw [join1_filename]
  rfl


/-- Witness for C1 at the concrete chunks of chunk_test.go. -/
theorem chunk_id_table_witness :
    Chunk.ID ⟨CMessages, 0, false, 0, none, "C123", none, [], [], []⟩ = "C123"
    ∧ Chunk.ID ⟨CThreadMessages, 0, false, 0, none, "C123", some ⟨"", "1234", ""⟩, [], [], []⟩ = "tC123:1234"
    ∧ Chunk.ID ⟨CFiles, 0, false, 0, none, "C123", some ⟨"1234", "", ""⟩, [], [], []⟩ = "fC123:1234"
    ∧ Chunk.ID ⟨CChannelInfo, 0, false, 0, none, "C123", none, [], [], []⟩ = "ciC123"
    ∧ Chunk.ID ⟨CChannelInfo, 0, true, 0, none, "C123", none, [], [], []⟩ = "tciC123"
    ∧ Chunk.ID ⟨CUsers, 0, false, 0, none, "", none, [], [], []⟩ = userChunkID
    ∧ Chunk.ID ⟨CChannels, 0, false, 0, none, "", none, [], [], []⟩ = channelChunkID
    ∧ Chunk.ID ⟨999, 0, false, 0, none, "", none, [], [], []⟩ = "<unknown:ChunkType(999)>" := by
  refine ⟨(chunk_id_table _).1 rfl, ?_, ?_, (chunk_id_table _).2.2.2.1 rfl rfl,
    (chunk_id_table _).2.2.2.2.1 rfl rfl, (chunk_id_table _).2.2.2.2.2.1 rfl,
    (chunk_id_table _).2.2.2.2.2.2.1 rfl, ?_⟩
  · exact (chunk_id_table ⟨CThreadMessages, 0, false, 0, none, "C123", some ⟨"", "1234", ""⟩,
      [], [], []⟩).2.1 rfl ⟨"", "1234", ""⟩ rfl
  · exact (chunk_id_table ⟨CFiles, 0, false, 0, none, "C123", some ⟨"1234", "", ""⟩,
      [], [], []⟩).2.2.1 rfl ⟨"1234", "", ""⟩ rfl
  · exact (chunk_id_table _).2.2.2.2.2.2.2.1 (by decide)

/-- Witness for C7: parentless thread and files chunks still get
well-formed identities. -/
theorem chunk_id_total_witness :
    Chunk.ID ⟨CThreadMessages, 0, false, 0, none, "C9", none, [], [], []⟩ = "tC9:"
    ∧ Chunk.ID ⟨CFiles, 0, false, 0, none, "C9", none, [], [], []⟩ = "fC9:" :=
  ⟨(chunk_id_total _).1 rfl rfl, (chunk_id_total _).2.1 rfl rfl⟩

/-- Witness for C2: a directory holding both a snapshot and a chunk file
with a ChannelInfo chunk answers from the snapshot. -/
theorem channels_snapshot_short_circuit_witness :
    Directory.Channels wFsSnap wD = readChannelsJSON [Json.arr [Channel.toJson wChan]]
    ∧ Directory.Channels wFsSnap wD = .ok [wChan] := by
  have h := channels_snapshot_short_circuit wFsSnap wD
      (Entry.fileE [Json.arr [Channel.toJson wChan]]) rfl (fun hx => Entry.noConfusion hx)
  exact ⟨h.2.1 _ rfl, (h.2.1 _ rfl).trans rfl⟩

/-- Witness for C3: a scan over one ChannelInfo file and one plain
messages file succeeds; a file with a malformed chunk aborts the scan
with the decode error. -/
theorem channels_fallback_scan_witness :
    Directory.Channels wFsScan wD = .ok [wChan]
    ∧ Directory.Channels wFsBad wD = .error (.decodeErr "expected object") := by
  constructor
  · have h := (channels_fallback_scan wFsScan wD (Or.inl rfl)).1
    have hrec : ∀ p ∈ chunkFiles wFsScan wD.dir, recoverable (loadChanInfo wFsScan p) := by
      intro p hp
      have hcf : chunkFiles wFsScan wD.dir = ["arch/C01.json.gz", "arch/C02.json.gz"] := rfl
      rw [hcf] at hp
      rcases List.mem_cons.mp hp with h1 | h1
      · subst h1; exact Or.inl ⟨[wChan], rfl⟩
      · rcases List.mem_cons.mp h1 with h2 | h2
        · subst h2; exact Or.inr rfl
        · simp at h2
    exact (h hrec).trans rfl
  · exact (channels_fallback_scan wFsBad wD (Or.inl rfl)).2.2.2
      [] "arch/C03.json.gz" [] (.decodeErr "expected object") rfl
      (by intro q hq; simp at hq) rfl (by simp)

/-- Witness for C4's amended statement at concrete close outcomes. -/
theorem closewrapper_close_order_witness :
    closewrapper.Close ⟨none, some "close failed"⟩
      = ([CloseEvent.inner, CloseEvent.outer], some "close failed")
    ∧ closewrapper.Close ⟨some "flush failed", none⟩ = ([CloseEvent.inner], some "flush failed") :=
  ⟨(closewrapper_close_order _).1 rfl, (closewrapper_close_order _).2 _ rfl⟩

/-- Witness for C5: guard failures on an existing chunk file and a
directory, and the create-write-close-create scenario. -/
theorem create_guard_witness :
    Directory.Create wFsScan wD "C01" = (wFsScan, .error (.existsNotEmpty "arch/C01.json.gz"))
    ∧ Directory.Create wFsMisc wD "sub" = (wFsMisc, .error (.notAFile "arch/sub.json.gz"))
    ∧ Directory.Create
        (WriterH.close (Directory.Create wFsNew wD "msgs").1
          (WriterH.write ⟨"arch/msgs.json.gz", []⟩ [wMsgChunk])) wD "msgs"
        = (WriterH.close (Directory.Create wFsNew wD "msgs").1
            (WriterH.write ⟨"arch/msgs.json.gz", []⟩ [wMsgChunk]),
           .error (.existsNotEmpty "arch/msgs.json.gz")) := by
  refine ⟨?_, ?_, ?_⟩
  · exact (create_guard wFsScan wD "C01").1 _ rfl
  · exact (create_guard wFsMisc wD "sub").2.1 rfl
  · exact (create_guard wFsNew wD "msgs").2.2 [wMsgChunk] ⟨"arch/msgs.json.gz", []⟩ rfl

/-- Witness for C6 on a directory with an empty users file and a
subdirectory with a chunk-file name. -/
theorem open_error_discrimination_witness :
    openChunks wFsMisc "arch/missing.json.gz" = .error (.notFound "arch/missing.json.gz")
    ∧ openChunks wFsMisc "arch/sub.json.gz" = .error (.isDirectory "arch/sub.json.gz")
    ∧ openChunks wFsMisc "arch/users.json.gz" = .error (.emptyChunkFile "arch/users.json.gz")
    ∧ DirErr.emptyChunkFile "arch/users.json.gz" ≠ DirErr.notFound "arch/users.json.gz"
    ∧ Directory.Open wFsMisc wD "users" = .error (.emptyChunkFile "arch/users.json.gz")
    ∧ Directory.OpenRAW wFsMisc wD "arch/users.json.gz"
        = .error (.emptyChunkFile "arch/users.json.gz")
    ∧ Directory.Users wFsMisc wD = .error (.emptyChunkFile "arch/users.json.gz") := by
  refine ⟨(open_error_discrimination wFsMisc wD "users" "x" "arch/missing.json.gz").1 rfl,
    (open_error_discrimination wFsMisc wD "users" "x" "arch/sub.json.gz").2.1 rfl,
    (open_error_discrimination wFsMisc wD "users" "x" "arch/users.json.gz").2.2.1 rfl,
    (open_error_discrimination wFsMisc wD "users" "x" "x").2.2.2.1 _ _,
    (open_error_discrimination wFsMisc wD "users" "x" "x").2.2.2.2.2.1 rfl,
    (open_error_discrimination wFsMisc wD "users" "arch/users.json.gz" "x").2.2.2.2.2.2.2.1 rfl,
    (open_error_discrimination wFsMisc wD "users" "x" "x").2.2.2.2.2.2.2.2.1 rfl⟩

/-- Witness for C8: a two-chunk write/reopen round-trip. -/
theorem chunk_roundtrip_witness :
    Directory.Open (WriterH.close (Directory.Create wFsNew wD "msgs").1
      (WriterH.write ⟨"arch/msgs.json.gz", []⟩ [wMsgChunk, wChanInfoChunk])) wD "msgs"
      = .ok [wMsgChunk, wChanInfoChunk] :=
  chunk_roundtrip wFsNew wD "msgs" [wMsgChunk, wChanInfoChunk] ⟨"arch/msgs.json.gz", []⟩ rfl

/-- Witness for C9: creating over an existing empty file succeeds. -/
theorem create_on_empty_file_witness :
    Directory.Create wFsMisc wD "users"
      = (FS.set wFsMisc "arch/users.json.gz" Entry.emptyFile, .ok ⟨"arch/users.json.gz", []⟩) :=
  create_on_empty_file wFsMisc wD "users" rfl

end Slackdump
